import Mathlib

/-!
Verification development for the mosaic-addon display core.

The Go sources are shallowly embedded: the rotation scheduler
(`internal/rotation`), the display orchestrator (`internal/display`) and the
configuration store (`internal/config`) become pure Lean functions over
explicit state records.  Machine integers are modelled as `Int`/`Nat` (no
overflow is reachable in the modelled code paths), Go slices as `List`, the
capacity-one signal channels as pending `Bool` flags, the `installed` map as
an association list, and the external pixlet renderer as an oracle record of
functions.  Wall-clock timestamps are threaded as explicit `now` arguments,
and persistence (disk writes in `Config.Save`) as an explicit success flag.
-/

namespace Mosaic

/-- Priority levels for notifications (`internal/rotation`):
`PriorityLow < PriorityNormal < PriorityHigh < PrioritySticky`, iota-valued. -/
inductive Priority where
  | low
  | normal
  | high
  | sticky
deriving DecidableEq

/-- The numeric value of a priority, as assigned by Go's `iota`. -/
def Priority.toNat : Priority → Nat
  | .low => 0
  | .normal => 1
  | .high => 2
  | .sticky => 3

/-- `rotation.AppEntry`: an app in the rotation.  `Config` is a string map,
modelled as an association list. -/
structure AppEntry where
  ID : String
  Name : String
  Path : String
  Config : List (String × String)
  DwellMs : Int
  Enabled : Bool
deriving DecidableEq

instance : Inhabited AppEntry :=
  ⟨{ ID := "", Name := "", Path := "", Config := [], DwellMs := 0, Enabled := false }⟩

/-- `rotation.Notification`: a temporary display override.  `Duration` and
`Created` are nanosecond counts (Go `time.Duration` / `time.Time`). -/
structure Notification where
  ID : String
  Text : String
  AppID : String
  Source : String
  Config : List (String × String)
  Duration : Int
  Priority : Priority
  Created : Int
deriving DecidableEq

/-- `rotation.Manager`: the per-display rotation scheduler state.  The two
capacity-one channels `skipCh`/`updateCh` appear as pending flags (a
non-blocking send on a full channel is dropped, so a `Bool` is exact), and the
presence of a registered advance callback as `hasOnAdvance`. -/
structure Manager where
  apps : List AppEntry
  currentIndex : Nat
  enabled : Bool
  defaultDwell : Int
  brightness : Int
  notifyQueue : List Notification
  skipPending : Bool
  updatePending : Bool
  hasOnAdvance : Bool
deriving DecidableEq

/-- `rotation.NewManager`: a zero default dwell falls back to 10 seconds
(expressed in nanoseconds, as Go `time.Duration`). -/
def NewManager (defaultDwell : Int) : Manager :=
  let dd := if defaultDwell = 0 then 10 * 1000000000 else defaultDwell
  { apps := [], currentIndex := 0, enabled := true, defaultDwell := dd,
    brightness := 80, notifyQueue := [], skipPending := false,
    updatePending := false, hasOnAdvance := false }

/-- `Manager.notifyUpdate`: non-blocking send on the capacity-one update
channel. -/
def Manager.notifyUpdate (m : Manager) : Manager :=
  { m with updatePending := true }

/-- `Manager.SetApps`: replaces the app list, resetting the current index to 0
when it is out of range for the new list. -/
def Manager.SetApps (m : Manager) (apps : List AppEntry) : Manager :=
  Manager.notifyUpdate
    { m with apps := apps,
             currentIndex := if m.currentIndex ≥ apps.length then 0 else m.currentIndex }

/-- `Manager.GetApps` returns a copy of the app list. -/
def Manager.GetApps (m : Manager) : List AppEntry :=
  m.apps

/-- `Manager.AddApp`: appends to the tail of the rotation. -/
def Manager.AddApp (m : Manager) (app : AppEntry) : Manager :=
  Manager.notifyUpdate { m with apps := m.apps ++ [app] }

/-- Removes the first entry with the given ID, or `none` when absent
(the loop body of `Manager.RemoveApp`). -/
def eraseFirstApp : List AppEntry → String → Option (List AppEntry)
  | [], _ => none
  | a :: rest, id =>
    if a.ID = id then some rest
    else (eraseFirstApp rest id).map (fun l => a :: l)

/-- `Manager.RemoveApp`: removes the first match, resets an out-of-range
current index to 0 when the list stays non-empty, and reports whether a
removal happened. -/
def Manager.RemoveApp (m : Manager) (id : String) : Manager × Bool :=
  match eraseFirstApp m.apps id with
  | none => (m, false)
  | some apps' =>
    let idx := if m.currentIndex ≥ apps'.length ∧ apps'.length > 0 then 0 else m.currentIndex
    (Manager.notifyUpdate { m with apps := apps', currentIndex := idx }, true)

/-- `Manager.SetEnabled`. -/
def Manager.SetEnabled (m : Manager) (enabled : Bool) : Manager :=
  { m with enabled := enabled }

/-- `Manager.IsEnabled`. -/
def Manager.IsEnabled (m : Manager) : Bool :=
  m.enabled

/-- `Manager.SetBrightness`: clamps the argument into `[0, 100]`. -/
def Manager.SetBrightness (m : Manager) (brightness : Int) : Manager :=
  let b := if brightness < 0 then 0 else if brightness > 100 then 100 else brightness
  { m with brightness := b }

/-- `Manager.GetBrightness`. -/
def Manager.GetBrightness (m : Manager) : Int :=
  m.brightness

/-- `Manager.Skip`: non-blocking send on the capacity-one skip channel; a
pending unconsumed request absorbs the new one. -/
def Manager.Skip (m : Manager) : Manager :=
  { m with skipPending := true }

/-- The scan loop of `Manager.CurrentApp`: `i` is the Go loop counter, `fuel`
the number of iterations left (`len(apps) - i`). -/
def currentAppGo (apps : List AppEntry) (start : Nat) : Nat → Nat → Option AppEntry
  | _, 0 => none
  | i, fuel + 1 =>
    let a := apps.getD ((start + i) % apps.length) default
    if a.Enabled then some a else currentAppGo apps start (i + 1) fuel

/-- `Manager.CurrentApp`: starting at the current index, scans forward
(wrapping) for the first enabled entry; `none` on an empty list or when no
entry is enabled. -/
def Manager.CurrentApp (m : Manager) : Option AppEntry :=
  if m.apps.length = 0 then none
  else currentAppGo m.apps m.currentIndex 0 m.apps.length

/-- The insertion loop of `Manager.PushNotification`: the new notification is
spliced in immediately before the first existing entry of strictly lower
priority, else appended to the tail. -/
def insertByPriority (n : Notification) : List Notification → List Notification
  | [] => [n]
  | e :: rest =>
    if e.Priority.toNat < n.Priority.toNat then n :: e :: rest
    else e :: insertByPriority n rest

/-- `Manager.PushNotification`: stamps `Created` with the current time and
inserts by priority. -/
def Manager.PushNotification (m : Manager) (n : Notification) (now : Int) : Manager :=
  Manager.notifyUpdate
    { m with notifyQueue := insertByPriority { n with Created := now } m.notifyQueue }

/-- `Manager.ClearNotifications`: retains only sticky entries. -/
def Manager.ClearNotifications (m : Manager) : Manager :=
  { m with notifyQueue := m.notifyQueue.filter (fun n => n.Priority = Priority.sticky) }

/-- `Manager.OnAdvance`: registers the advance callback. -/
def Manager.OnAdvance (m : Manager) : Manager :=
  { m with hasOnAdvance := true }

/-- The scan loop of `Manager.advance`: each iteration moves `currentIndex`
(carried as `cur`) to the following slot and stops at the first enabled entry;
`fuel` counts the remaining iterations. -/
def advLoop (apps : List AppEntry) (startIdx : Nat) : Nat → Nat → Nat → Nat
  | _, cur, 0 => cur
  | i, cur, fuel + 1 =>
    let c := (startIdx + i + 1) % apps.length
    if (apps.getD c default).Enabled then c
    else advLoop apps startIdx (i + 1) c fuel

/-- `Manager.advance`: a no-op on an empty list; otherwise runs the scan loop
and, when a callback is registered, passes it the entry now at the current
index (the second component models the callback argument). -/
def Manager.advance (m : Manager) : Manager × Option AppEntry :=
  if m.apps.length = 0 then (m, none)
  else
    let newIdx := advLoop m.apps m.currentIndex 0 m.currentIndex m.apps.length
    ({ m with currentIndex := newIdx },
     if m.hasOnAdvance then some (m.apps.getD newIdx default) else none)

/-- `Manager.getCurrentDwell`: the per-entry override in milliseconds when
positive, else the scheduler default (both as nanosecond durations). -/
def Manager.getCurrentDwell (m : Manager) : Int :=
  if m.apps.length = 0 then m.defaultDwell
  else
    let app := m.apps.getD m.currentIndex default
    if app.DwellMs > 0 then app.DwellMs * 1000000 else m.defaultDwell

/-- The scheduler's mutating operations, for stating state invariants over
arbitrary call sequences. -/
inductive MOp where
  | setApps : List AppEntry → MOp
  | addApp : AppEntry → MOp
  | removeApp : String → MOp
  | setEnabled : Bool → MOp
  | setBrightness : Int → MOp
  | skip : MOp
  | pushNotification : Notification → Int → MOp
  | clearNotifications : MOp
  | onAdvance : MOp
  | advance : MOp

/-- Applies one scheduler operation. -/
def Manager.applyOp (m : Manager) : MOp → Manager
  | .setApps l => m.SetApps l
  | .addApp a => m.AddApp a
  | .removeApp id => (m.RemoveApp id).1
  | .setEnabled b => m.SetEnabled b
  | .setBrightness v => m.SetBrightness v
  | .skip => m.Skip
  | .pushNotification n t => m.PushNotification n t
  | .clearNotifications => m.ClearNotifications
  | .onAdvance => m.OnAdvance
  | .advance => m.advance.1

/-- Applies a sequence of scheduler operations. -/
def Manager.runOps (m : Manager) (ops : List MOp) : Manager :=
  ops.foldl Manager.applyOp m

/-- The entry at wrapped position `k` of the rotation list (shorthand used in
statements about the scan loops). -/
def entryAt (apps : List AppEntry) (k : Nat) : AppEntry :=
  apps.getD (k % apps.length) default

/-! Helper lemmas about the scan loops. -/

lemma getD_mem {l : List AppEntry} {i : Nat} (h : i < l.length) :
    l.getD i default ∈ l := by
  have hg : l.getD i default = l[i] := by
    simp [List.getD_eq_getElem?_getD, List.getElem?_eq_getElem h]
  rw [hg]
  exact List.getElem_mem h

lemma getD_of_getElem {l : List AppEntry} {i : Nat} {a : AppEntry}
    (h : i < l.length) (hg : l[i] = a) : l.getD i default = a := by
  simp [List.getD_eq_getElem?_getD, List.getElem?_eq_getElem h, hg]

/-- Scanning `len` wrapped slots from any starting offset visits every
position of the list. -/
lemma exists_hit {len : Nat} (hlen : 0 < len) (idx : Nat) {pos : Nat} (hpos : pos < len) :
    ∃ j, j < len ∧ (idx + j) % len = pos := by
  refine ⟨(pos + len - idx % len) % len, Nat.mod_lt _ hlen, ?_⟩
  have hq : idx % len < len := Nat.mod_lt _ hlen
  obtain ⟨K, hK⟩ : ∃ K, len * (idx / len) = K := ⟨_, rfl⟩
  have hdm : K + idx % len = idx := by rw [← hK]; exact Nat.div_add_mod idx len
  rw [Nat.add_mod_mod]
  have e3 : idx + (pos + len - idx % len) = pos + len + K := by omega
  rw [e3, ← hK]
  have e4 : pos + len + len * (idx / len) = pos + (1 + idx / len) * len := by ring
  rw [e4, Nat.add_mul_mod_self_right, Nat.mod_eq_of_lt hpos]

lemma currentAppGo_none (apps : List AppEntry) (start : Nat) :
    ∀ fuel i,
      (∀ t, t < fuel → (apps.getD ((start + i + t) % apps.length) default).Enabled = false) →
      currentAppGo apps start i fuel = none := by
  intro fuel
  induction fuel with
  | zero => intro i _; rfl
  | succ fuel ih =>
    intro i h
    have h0 := h 0 (Nat.succ_pos _)
    simp only [Nat.add_zero] at h0
    simp only [currentAppGo, h0, Bool.false_eq_true, if_false]
    refine ih (i + 1) ?_
    intro t ht
    have h' := h (t + 1) (by omega)
    have e : start + i + (t + 1) = start + (i + 1) + t := by omega
    rwa [e] at h'

lemma currentAppGo_first (apps : List AppEntry) (start : Nat) :
    ∀ fuel i j, j < fuel →
      (apps.getD ((start + i + j) % apps.length) default).Enabled = true →
      (∀ t, t < j → (apps.getD ((start + i + t) % apps.length) default).Enabled = false) →
      currentAppGo apps start i fuel = some (apps.getD ((start + i + j) % apps.length) default) := by
  intro fuel
  induction fuel with
  | zero => intro i j hj _ _; exact absurd hj (Nat.not_lt_zero j)
  | succ fuel ih =>
    intro i j hj he hmin
    cases j with
    | zero =>
      simp only [Nat.add_zero] at he ⊢
      simp only [currentAppGo, he]
      rw [if_pos trivial]
    | succ j =>
      have h0 := hmin 0 (Nat.succ_pos _)
      simp only [Nat.add_zero] at h0
      simp only [currentAppGo, h0, Bool.false_eq_true, if_false]
      have e : start + i + (j + 1) = start + (i + 1) + j := by omega
      rw [e] at he ⊢
      refine ih (i + 1) j (by omega) he ?_
      intro t ht
      have h' := hmin (t + 1) (by omega)
      have e2 : start + i + (t + 1) = start + (i + 1) + t := by omega
      rwa [e2] at h'

lemma currentAppGo_some_enabled (apps : List AppEntry) (start : Nat) :
    ∀ fuel i e, currentAppGo apps start i fuel = some e → e.Enabled = true := by
  intro fuel
  induction fuel with
  | zero => intro i e h; cases h
  | succ fuel ih =>
    intro i e h
    by_cases hc : (apps.getD ((start + i) % apps.length) default).Enabled = true
    · simp only [currentAppGo, hc] at h
      rw [if_pos trivial] at h
      injection h with h
      rw [← h]
      exact hc
    · simp only [currentAppGo, hc, if_false] at h
      exact ih (i + 1) e h

lemma currentApp_none_iff (m : Manager) :
    m.CurrentApp = none ↔ m.apps = [] ∨ ∀ a ∈ m.apps, a.Enabled = false := by
  unfold Manager.CurrentApp
  by_cases h0 : m.apps.length = 0
  · simp [h0, List.length_eq_zero.mp h0]
  · rw [if_neg h0]
    constructor
    · intro hnone
      refine Or.inr ?_
      by_contra hex
      push_neg at hex
      obtain ⟨a, ha, hen⟩ := hex
      rw [Bool.ne_false_iff] at hen
      obtain ⟨pos, hpos, hget⟩ := List.mem_iff_getElem.mp ha
      have hlen : 0 < m.apps.length := by omega
      obtain ⟨j, hj, hjpos⟩ := exists_hit hlen m.currentIndex hpos
      have hPj : (m.apps.getD ((m.currentIndex + j) % m.apps.length) default).Enabled = true := by
        rw [hjpos, getD_of_getElem hpos hget]
        exact hen
      have hex2 : ∃ t,
          (m.apps.getD ((m.currentIndex + t) % m.apps.length) default).Enabled = true := ⟨j, hPj⟩
      have hspec := Nat.find_spec hex2
      have hle : Nat.find hex2 ≤ j := Nat.find_min' hex2 hPj
      have hfirst := currentAppGo_first m.apps m.currentIndex m.apps.length 0 (Nat.find hex2)
        (by omega) (by simpa only [Nat.add_zero] using hspec) ?_
      · rw [hnone] at hfirst
        cases hfirst
      · intro t ht
        have := Nat.find_min hex2 ht
        simpa only [Nat.add_zero, Bool.not_eq_true] using this
    · intro hall
      rcases hall with h | hdis
      · simp [h] at h0
      · refine currentAppGo_none m.apps m.currentIndex m.apps.length 0 ?_
        intro t _
        exact hdis _ (getD_mem (Nat.mod_lt _ (by omega)))

lemma currentApp_first (m : Manager) (j : Nat) (hj : j < m.apps.length)
    (he : (entryAt m.apps (m.currentIndex + j)).Enabled = true)
    (hmin : ∀ t, t < j → (entryAt m.apps (m.currentIndex + t)).Enabled = false) :
    m.CurrentApp = some (entryAt m.apps (m.currentIndex + j)) := by
  unfold entryAt at he hmin ⊢
  unfold Manager.CurrentApp
  rw [if_neg (by omega)]
  exact currentAppGo_first m.apps m.currentIndex m.apps.length 0 j
    (by simpa only [Nat.add_zero] using hj)
    (by simpa only [Nat.add_zero] using he)
    (fun t ht => by simpa only [Nat.add_zero] using hmin t ht)

lemma advLoop_all_disabled (apps : List AppEntry) (start : Nat) (hlen : 0 < apps.length)
    (hdis : ∀ a ∈ apps, a.Enabled = false) :
    ∀ fuel i cur, 0 < fuel → advLoop apps start i cur fuel = (start + i + fuel) % apps.length := by
  intro fuel
  induction fuel with
  | zero => intro i cur h; exact absurd h (by omega)
  | succ fuel ih =>
    intro i cur _
    have h0 : (apps.getD ((start + i + 1) % apps.length) default).Enabled = false :=
      hdis _ (getD_mem (Nat.mod_lt _ hlen))
    simp only [advLoop, h0, Bool.false_eq_true, if_false]
    rcases Nat.eq_zero_or_pos fuel with hf | hf
    · subst hf
      simp only [advLoop]
    · rw [ih (i + 1) ((start + i + 1) % apps.length) hf]
      congr 1
      omega

lemma advLoop_first (apps : List AppEntry) (start : Nat) :
    ∀ fuel i cur j, j < fuel →
      (apps.getD ((start + i + j + 1) % apps.length) default).Enabled = true →
      (∀ t, t < j → (apps.getD ((start + i + t + 1) % apps.length) default).Enabled = false) →
      advLoop apps start i cur fuel = (start + i + j + 1) % apps.length := by
  intro fuel
  induction fuel with
  | zero => intro i cur j hj _ _; exact absurd hj (Nat.not_lt_zero j)
  | succ fuel ih =>
    intro i cur j hj he hmin
    cases j with
    | zero =>
      simp only [Nat.add_zero] at he ⊢
      simp only [advLoop, he]
      rw [if_pos trivial]
    | succ j =>
      have h0 := hmin 0 (Nat.succ_pos _)
      simp only [Nat.add_zero] at h0
      simp only [advLoop, h0, Bool.false_eq_true, if_false]
      have e : start + i + (j + 1) + 1 = start + (i + 1) + j + 1 := by omega
      rw [e] at he ⊢
      refine ih (i + 1) _ j (by omega) he ?_
      intro t ht
      have h' := hmin (t + 1) (by omega)
      have e2 : start + i + (t + 1) + 1 = start + (i + 1) + t + 1 := by omega
      rwa [e2] at h'

lemma currentApp_some_enabled (m : Manager) (e : AppEntry) (h : m.CurrentApp = some e) :
    e.Enabled = true := by
  unfold Manager.CurrentApp at h
  by_cases h0 : m.apps.length = 0
  · rw [if_pos h0] at h
    cases h
  · rw [if_neg h0] at h
    exact currentAppGo_some_enabled m.apps m.currentIndex m.apps.length 0 e h

lemma advLoop_enabled (apps : List AppEntry) (start : Nat) (fuel i cur : Nat)
    (h : ∃ t, t < fuel ∧ (apps.getD ((start + i + t + 1) % apps.length) default).Enabled = true) :
    (apps.getD (advLoop apps start i cur fuel) default).Enabled = true := by
  obtain ⟨t, ht, hP⟩ := h
  have hex : ∃ s, (apps.getD ((start + i + s + 1) % apps.length) default).Enabled = true := ⟨t, hP⟩
  have hspec := Nat.find_spec hex
  have hlt : Nat.find hex < fuel := lt_of_le_of_lt (Nat.find_min' hex hP) ht
  rw [advLoop_first apps start fuel i cur (Nat.find hex) hlt hspec ?_]
  · exact hspec
  · intro s hs
    have := Nat.find_min hex hs
    simpa only [Bool.not_eq_true] using this

/-! Concrete scheduler states used by witnesses and counterexamples. -/

/-- An enabled rotation entry. -/
def aOn : AppEntry :=
  { ID := "a", Name := "A", Path := "a.star", Config := [], DwellMs := 0, Enabled := true }

/-- A disabled rotation entry. -/
def eOff : AppEntry :=
  { ID := "b", Name := "B", Path := "b.star", Config := [], DwellMs := 0, Enabled := false }

/-- A second enabled rotation entry, with a dwell override. -/
def eOn : AppEntry :=
  { ID := "c", Name := "C", Path := "c.star", Config := [], DwellMs := 2000, Enabled := true }

/-- A scheduler positioned on a disabled entry, with an enabled entry behind it. -/
def mScan : Manager :=
  { NewManager 0 with apps := [eOn, eOff], currentIndex := 1 }

/-- A scheduler with apps `a` (enabled), `b` (disabled), `c` (enabled), a
registered advance callback, and current index 0. -/
def mAdv : Manager :=
  { NewManager 0 with apps := [aOn, eOff, eOn], hasOnAdvance := true }

/-- A scheduler whose only entry is disabled, with a registered callback. -/
def mAllOff : Manager :=
  { NewManager 0 with apps := [eOff], hasOnAdvance := true }

/-! The claims about the rotation scheduler. -/

/-- Claim C3: `Manager.CurrentApp` scans forward from the current index
(wrapping, at most `len(apps)` steps) and returns the first entry with
`Enabled == true`; it returns none exactly when the list is empty or no entry
is enabled. -/
theorem currentApp_scans_first_enabled (m : Manager) :
    (m.CurrentApp = none ↔ m.apps = [] ∨ ∀ a ∈ m.apps, a.Enabled = false)
    ∧ (∀ j, j < m.apps.length →
        (entryAt m.apps (m.currentIndex + j)).Enabled = true →
        (∀ t, t < j → (entryAt m.apps (m.currentIndex + t)).Enabled = false) →
        m.CurrentApp = some (entryAt m.apps (m.currentIndex + j))) :=
  ⟨currentApp_none_iff m, fun j hj he hmin => currentApp_first m j hj he hmin⟩

/-- Witness for C3 at a concrete state: from index 1 of `[eOn, eOff]` the scan
wraps past the disabled entry and lands on `eOn`. -/
theorem currentApp_scans_first_enabled_witness :
    Manager.CurrentApp mScan = some (entryAt mScan.apps (mScan.currentIndex + 1)) :=
  (currentApp_scans_first_enabled mScan).2 1 (by decide) (by decide) (by decide)

/-- Claim C5: `Manager.advance` moves the current index forward to the next
enabled entry, wrapping, with a search bounded by `len(apps)` steps; with no
enabled entry the index is unchanged, and on an empty list the whole state is
unchanged with no callback and no error. -/
theorem advance_next_enabled (m : Manager) :
    (m.apps = [] → m.advance = (m, none))
    ∧ ((∀ a ∈ m.apps, a.Enabled = false) → m.currentIndex < m.apps.length →
        m.advance.1 = m)
    ∧ (∀ j, j < m.apps.length →
        (entryAt m.apps (m.currentIndex + j + 1)).Enabled = true →
        (∀ t, t < j → (entryAt m.apps (m.currentIndex + t + 1)).Enabled = false) →
        m.advance.1 = { m with currentIndex := (m.currentIndex + j + 1) % m.apps.length }) := by
  refine ⟨?_, ?_, ?_⟩
  · intro h
    unfold Manager.advance
    rw [if_pos (by simp [h])]
  · intro hdis hidx
    have hlen : 0 < m.apps.length := by omega
    unfold Manager.advance
    rw [if_neg (by omega)]
    have hloop := advLoop_all_disabled m.apps m.currentIndex hlen hdis
      m.apps.length 0 m.currentIndex hlen
    have hidx2 : (m.currentIndex + 0 + m.apps.length) % m.apps.length = m.currentIndex := by
      have e : m.currentIndex + 0 + m.apps.length = m.currentIndex + m.apps.length := by omega
      rw [e, Nat.add_mod_right, Nat.mod_eq_of_lt hidx]
    rw [hloop, hidx2]
  · intro j hj he hmin
    have hlen : 0 < m.apps.length := by omega
    unfold entryAt at he hmin
    unfold Manager.advance
    rw [if_neg (by omega)]
    have hloop := advLoop_first m.apps m.currentIndex m.apps.length 0 m.currentIndex j hj
      (by simpa only [Nat.add_zero] using he)
      (fun t ht => by simpa only [Nat.add_zero] using hmin t ht)
    simp only [hloop, Nat.add_zero]

/-- Witness for C5 at a concrete state: from index 0 of
`[aOn, eOff, eOn]`, advance skips the disabled entry and lands on index 2. -/
theorem advance_next_enabled_witness :
    (Manager.advance mAdv).1 = { mAdv with currentIndex := (mAdv.currentIndex + 1 + 1) % mAdv.apps.length } :=
  (advance_next_enabled mAdv).2.2 1 (by decide) (by decide) (by decide)

/-- Claim C2 counterexample: with `apps = [eOff]` (the only entry disabled)
and a registered callback, `advance` still invokes the callback, and the entry
it passes has `Enabled = false` — refuting the claim that the callback always
receives an enabled entry. -/
theorem advance_callback_disabled_cex :
    (Manager.advance mAllOff).2.map AppEntry.Enabled = some false := by decide

/-- Claim C2 (amended): `CurrentApp` only ever returns enabled entries, and
the entry passed to the registered advance callback is enabled provided at
least one entry of the list is enabled; when no entry is enabled, `advance`
still invokes the callback with the (disabled) entry at the unchanged current
index. -/
theorem advance_callback_enabled (m : Manager) :
    (∀ e, m.CurrentApp = some e → e.Enabled = true)
    ∧ (m.hasOnAdvance = true → (∃ a ∈ m.apps, a.Enabled = true) →
        ∃ e, m.advance.2 = some e ∧ e.Enabled = true) := by
  constructor
  · exact fun e he => currentApp_some_enabled m e he
  · rintro hcb ⟨a, ha, hen⟩
    have hlen : 0 < m.apps.length := List.length_pos.mpr (List.ne_nil_of_mem ha)
    have key : (m.apps.getD (advLoop m.apps m.currentIndex 0 m.currentIndex m.apps.length)
        default).Enabled = true := by
      obtain ⟨pos, hpos, hget⟩ := List.mem_iff_getElem.mp ha
      obtain ⟨t, ht, htpos⟩ := exists_hit hlen (m.currentIndex + 1) hpos
      refine advLoop_enabled m.apps m.currentIndex m.apps.length 0 m.currentIndex ⟨t, ht, ?_⟩
      have e2 : m.currentIndex + 0 + t + 1 = m.currentIndex + 1 + t := by omega
      rw [e2, htpos, getD_of_getElem hpos hget]
      exact hen
    refine ⟨m.apps.getD (advLoop m.apps m.currentIndex 0 m.currentIndex m.apps.length) default,
      ?_, key⟩
    unfold Manager.advance
    rw [if_neg (by omega)]
    simp [hcb]

/-- Witness for the amended C2 at a concrete state with an enabled entry. -/
theorem advance_callback_enabled_witness :
    ∃ e, (Manager.advance mAdv).2 = some e ∧ e.Enabled = true :=
  (advance_callback_enabled mAdv).2 rfl ⟨aOn, by decide, rfl⟩

/-- Claim C7: a `Skip` on a state whose skip signal is already pending leaves
the state unchanged (the request is dropped), and `Skip` composed with `Skip`
equals a single `Skip` — bursts of skip requests coalesce into at most one
pending advance. -/
theorem skip_coalesces (m : Manager) :
    (m.skipPending = true → m.Skip = m) ∧ m.Skip.Skip = m.Skip := by
  constructor
  · intro h
    unfold Manager.Skip
    cases m
    simp only at h
    rw [h]
  · rfl

/-- Witness for C7: a second skip on a freshly skipped scheduler is dropped. -/
theorem skip_coalesces_witness :
    ((NewManager 0).Skip).Skip = (NewManager 0).Skip :=
  (skip_coalesces ((NewManager 0).Skip)).1 rfl

/-- Claim C8: `SetApps` replaces the app list and resets the current index to
0 exactly when it is `≥` the new length; after such a reset, `CurrentApp`
returns the first enabled entry scanning from index 0. -/
theorem setApps_resets_index (m : Manager) (l : List AppEntry) :
    (m.SetApps l).apps = l
    ∧ (m.SetApps l).currentIndex = (if m.currentIndex ≥ l.length then 0 else m.currentIndex)
    ∧ (m.currentIndex ≥ l.length →
        ∀ j, j < l.length →
          (entryAt l j).Enabled = true →
          (∀ t, t < j → (entryAt l t).Enabled = false) →
          (m.SetApps l).CurrentApp = some (entryAt l j)) := by
  refine ⟨rfl, rfl, ?_⟩
  intro hge j hj he hmin
  have h1 : (m.SetApps l).apps = l := rfl
  have h2 : (m.SetApps l).currentIndex = 0 := by
    simp [Manager.SetApps, Manager.notifyUpdate, hge]
  have main := currentApp_first (m.SetApps l) j
  rw [h1, h2] at main
  simp only [Nat.zero_add] at main
  exact main hj he hmin

/-- Witness for C8: an out-of-range index (5 against a 2-element list) resets
to 0 and `CurrentApp` finds the first enabled entry from the front. -/
theorem setApps_resets_index_witness :
    (Manager.SetApps { NewManager 0 with currentIndex := 5 } [eOff, eOn]).CurrentApp
      = some (entryAt [eOff, eOn] 1) :=
  (setApps_resets_index { NewManager 0 with currentIndex := 5 } [eOff, eOn]).2.2
    (by decide) 1 (by decide) (by decide) (by decide)

/-! Brightness invariant machinery (claim C9). -/

/-- The brightness invariant: always within `[0, 100]`. -/
def brightnessOK (m : Manager) : Prop :=
  0 ≤ m.brightness ∧ m.brightness ≤ 100

lemma applyOp_brightnessOK (m : Manager) (op : MOp) (h : brightnessOK m) :
    brightnessOK (m.applyOp op) := by
  cases op with
  | setApps l =>
    simpa [Manager.applyOp, Manager.SetApps, Manager.notifyUpdate, brightnessOK] using h
  | addApp a =>
    simpa [Manager.applyOp, Manager.AddApp, Manager.notifyUpdate, brightnessOK] using h
  | removeApp id =>
    simp only [Manager.applyOp, Manager.RemoveApp]
    rcases heq : eraseFirstApp m.apps id with _ | l
    · simpa using h
    · simpa [Manager.notifyUpdate, brightnessOK] using h
  | setEnabled b =>
    simpa [Manager.applyOp, Manager.SetEnabled, brightnessOK] using h
  | setBrightness v =>
    simp only [Manager.applyOp, Manager.SetBrightness, brightnessOK]
    constructor <;> (split_ifs <;> omega)
  | skip =>
    simpa [Manager.applyOp, Manager.Skip, brightnessOK] using h
  | pushNotification n t =>
    simpa [Manager.applyOp, Manager.PushNotification, Manager.notifyUpdate, brightnessOK] using h
  | clearNotifications =>
    simpa [Manager.applyOp, Manager.ClearNotifications, brightnessOK] using h
  | onAdvance =>
    simpa [Manager.applyOp, Manager.OnAdvance, brightnessOK] using h
  | advance =>
    simp only [Manager.applyOp, Manager.advance]
    split
    · exact h
    · simpa [brightnessOK] using h

lemma runOps_brightnessOK (ops : List MOp) :
    ∀ m : Manager, brightnessOK m → brightnessOK (m.runOps ops) := by
  induction ops with
  | nil => intro m h; exact h
  | cons op ops ih =>
    intro m h
    exact ih (m.applyOp op) (applyOp_brightnessOK m op h)

/-- Claim C9: `SetBrightness v` stores `min 100 (max 0 v)` — 150 clamps to
100 and −5 clamps to 0 — the initial brightness is 80, and brightness stays in
`[0, 100]` after any sequence of scheduler operations. -/
theorem setBrightness_clamps (m : Manager) (v d : Int) (ops : List MOp) :
    (m.SetBrightness v).brightness = min 100 (max 0 v)
    ∧ ((NewManager d).SetBrightness 150).brightness = 100
    ∧ ((NewManager d).SetBrightness (-5)).brightness = 0
    ∧ (NewManager d).brightness = 80
    ∧ 0 ≤ ((NewManager d).runOps ops).brightness
    ∧ ((NewManager d).runOps ops).brightness ≤ 100 := by
  have h80 : (NewManager d).brightness = 80 := rfl
  have h150 : ((NewManager d).SetBrightness 150).brightness = 100 := by
    show (if (150 : Int) < 0 then (0 : Int) else if (150 : Int) > 100 then 100 else 150) = 100
    norm_num
  have hm5 : ((NewManager d).SetBrightness (-5)).brightness = 0 := by
    show (if (-5 : Int) < 0 then (0 : Int) else if (-5 : Int) > 100 then 100 else (-5)) = 0
    norm_num
  have hOK : brightnessOK (NewManager d) := by
    show 0 ≤ (NewManager d).brightness ∧ (NewManager d).brightness ≤ 100
    rw [h80]
    norm_num
  have hinv := runOps_brightnessOK ops (NewManager d) hOK
  refine ⟨?_, h150, hm5, h80, hinv.1, hinv.2⟩
  show (if v < 0 then 0 else if v > 100 then 100 else v) = min 100 (max 0 v)
  split_ifs <;> omega

/-! Priority queue machinery (claim C4). -/

/-- The notification queue is in descending priority order. -/
def priorityDescending (q : List Notification) : Prop :=
  q.Pairwise (fun a b => b.Priority.toNat ≤ a.Priority.toNat)

lemma mem_insertByPriority {x n : Notification} {q : List Notification} :
    x ∈ insertByPriority n q ↔ x = n ∨ x ∈ q := by
  induction q with
  | nil => simp [insertByPriority]
  | cons e rest ih =>
    simp only [insertByPriority]
    split_ifs with h
    · simp [List.mem_cons]
    · simp only [List.mem_cons, ih]
      tauto

lemma insertByPriority_pairwise {n : Notification} {q : List Notification}
    (h : priorityDescending q) : priorityDescending (insertByPriority n q) := by
  induction q with
  | nil => simp [insertByPriority, priorityDescending]
  | cons e rest ih =>
    rcases List.pairwise_cons.mp h with ⟨he, hrest⟩
    simp only [insertByPriority]
    split_ifs with hlt
    · refine List.Pairwise.cons ?_ h
      intro x hx
      rcases List.mem_cons.mp hx with rfl | hx'
      · omega
      · have := he x hx'
        omega
    · refine List.Pairwise.cons ?_ (ih hrest)
      intro x hx
      rcases mem_insertByPriority.mp hx with rfl | hx'
      · omega
      · exact he x hx'

lemma filter_insertByPriority (p : Priority) (n : Notification) (q : List Notification)
    (h : priorityDescending q) :
    (insertByPriority n q).filter (fun x => x.Priority = p)
      = if n.Priority = p
        then q.filter (fun x => x.Priority = p) ++ [n]
        else q.filter (fun x => x.Priority = p) := by
  induction q with
  | nil =>
    by_cases hp : n.Priority = p <;> simp [insertByPriority, hp]
  | cons e rest ih =>
    rcases List.pairwise_cons.mp h with ⟨he, hrest⟩
    by_cases hlt : e.Priority.toNat < n.Priority.toNat
    · rw [show insertByPriority n (e :: rest) = n :: e :: rest by
        simp [insertByPriority, hlt]]
      by_cases hp : n.Priority = p
      · have hnil : (e :: rest).filter (fun x => x.Priority = p) = [] := by
          rw [List.filter_eq_nil_iff]
          intro x hx
          rcases List.mem_cons.mp hx with rfl | hx'
          · simp only [decide_eq_true_eq]
            intro heq
            rw [heq, ← hp] at hlt
            omega
          · have := he x hx'
            simp only [decide_eq_true_eq]
            intro heq
            rw [heq, ← hp] at this
            omega
        simp [hp, hnil]
      · simp [hp]
    · rw [show insertByPriority n (e :: rest) = e :: insertByPriority n rest by
        simp [insertByPriority, hlt]]
      have ihr := ih hrest
      by_cases hep : e.Priority = p <;> by_cases hp : n.Priority = p <;>
        simp [List.filter_cons, hep, hp, ihr]

lemma insertByPriority_eq_splice (n : Notification) (q : List Notification) :
    insertByPriority n q
      = q.takeWhile (fun e => ! decide (e.Priority.toNat < n.Priority.toNat))
        ++ n :: q.dropWhile (fun e => ! decide (e.Priority.toNat < n.Priority.toNat)) := by
  induction q with
  | nil => simp [insertByPriority]
  | cons e rest ih =>
    by_cases h : e.Priority.toNat < n.Priority.toNat
    · simp [insertByPriority, h, List.takeWhile_cons, List.dropWhile_cons]
    · simp [insertByPriority, h, List.takeWhile_cons, List.dropWhile_cons, ih]

/-- The queue produced by a sequence of pushes onto an existing queue
(the `Created` stamp of each push applied, as in `PushNotification`). -/
def pushAllQueue (ps : List (Notification × Int)) (q : List Notification) : List Notification :=
  ps.foldl (fun acc pr => insertByPriority { pr.1 with Created := pr.2 } acc) q

lemma pushAllQueue_pairwise : ∀ ps (q : List Notification), priorityDescending q →
    priorityDescending (pushAllQueue ps q) := by
  intro ps
  induction ps with
  | nil => intro q h; exact h
  | cons pr ps ih =>
    intro q h
    exact ih _ (insertByPriority_pairwise h)

lemma pushAllQueue_filter (p : Priority) : ∀ ps (q : List Notification), priorityDescending q →
    (pushAllQueue ps q).filter (fun x => x.Priority = p)
      = q.filter (fun x => x.Priority = p)
        ++ (ps.map (fun pr => { pr.1 with Created := pr.2 })).filter (fun x => x.Priority = p) := by
  intro ps
  induction ps with
  | nil => intro q _; simp [pushAllQueue]
  | cons pr ps ih =>
    intro q h
    have step := filter_insertByPriority p { pr.1 with Created := pr.2 } q h
    have hq' := insertByPriority_pairwise (n := { pr.1 with Created := pr.2 }) h
    show (pushAllQueue ps (insertByPriority { pr.1 with Created := pr.2 } q)).filter _ = _
    rw [ih _ hq', step]
    by_cases hp : pr.1.Priority = p
    · simp [hp, List.filter_cons]
    · simp [hp, List.filter_cons]

/-- A sequence of `PushNotification` calls (each with its timestamp). -/
def Manager.pushMany (m : Manager) (ps : List (Notification × Int)) : Manager :=
  ps.foldl (fun acc pr => acc.PushNotification pr.1 pr.2) m

lemma pushMany_queue : ∀ ps (m : Manager),
    (m.pushMany ps).notifyQueue = pushAllQueue ps m.notifyQueue := by
  intro ps
  induction ps with
  | nil => intro m; rfl
  | cons pr ps ih =>
    intro m
    show ((m.PushNotification pr.1 pr.2).pushMany ps).notifyQueue = _
    rw [ih]
    rfl

/-- Claim C4: `PushNotification` inserts the new entry immediately before the
first queue entry of strictly lower priority (appending to the tail when none
exists), and therefore any sequence of pushes from the initial empty queue
yields a queue sorted by descending priority in which entries of equal
priority appear in arrival order. -/
theorem pushNotification_priority_queue (m : Manager) (n : Notification) (now d : Int)
    (ps : List (Notification × Int)) :
    (m.PushNotification n now).notifyQueue
      = m.notifyQueue.takeWhile (fun e => ! decide (e.Priority.toNat < n.Priority.toNat))
        ++ { n with Created := now }
          :: m.notifyQueue.dropWhile (fun e => ! decide (e.Priority.toNat < n.Priority.toNat))
    ∧ priorityDescending ((NewManager d).pushMany ps).notifyQueue
    ∧ ∀ p : Priority,
        (((NewManager d).pushMany ps).notifyQueue).filter (fun x => x.Priority = p)
          = (ps.map (fun pr => { pr.1 with Created := pr.2 })).filter
              (fun x => x.Priority = p) := by
  refine ⟨?_, ?_, ?_⟩
  · show insertByPriority { n with Created := now } m.notifyQueue = _
    exact insertByPriority_eq_splice { n with Created := now } m.notifyQueue
  · rw [pushMany_queue]
    exact pushAllQueue_pairwise ps [] (List.Pairwise.nil)
  · intro p
    rw [pushMany_queue]
    simpa using pushAllQueue_filter p ps [] (List.Pairwise.nil)

/-! Display orchestrator and configuration store embedding
(`internal/display`, `internal/config`, the `installed` map of
`internal/apps.Repository`, and the `internal/pixlet` renderer boundary). -/

/-- `apps.App`: an installed app.  `SchemaJSON` is a byte slice and
`Installed` a timestamp. -/
structure App where
  ID : String
  Name : String
  Summary : String
  Description : String
  Author : String
  Category : String
  Path : String
  Config : List (String × String)
  SchemaJSON : List Nat
  Source : String
  Installed : Int
deriving DecidableEq

/-- `apps.Repository.Get`: lookup in the `installed` map, modelled as an
association list with unique keys; `none` is Go's nil result. -/
def reposGet : List (String × App) → String → Option App
  | [], _ => none
  | (k, a) :: rest, id => if k = id then some a else reposGet rest id

/-- `config.Config`: the server configuration.  `path` is the backing file
path (empty when unset). -/
structure Config where
  path : String
  Port : String
  LogLevel : String
  DefaultWidth : Int
  DefaultHeight : Int
  DefaultDwell : Int
  Brightness : Int
  RotationEnabled : Bool
  Apps : List AppEntry
  PowerOn : Bool
deriving DecidableEq

/-- `config.DefaultConfig`. -/
def DefaultConfig : Config :=
  { path := "", Port := "8176", LogLevel := "info", DefaultWidth := 64, DefaultHeight := 32,
    DefaultDwell := 10000, Brightness := 80, RotationEnabled := true,
    Apps := [], PowerOn := true }

/-- `Config.Save`: fails when no path is set; the disk write itself is
external, modelled by the `saveOk` success flag. -/
def Config.Save (c : Config) (saveOk : Bool) : Option String :=
  if c.path = "" then some ("config path not set")
  else if saveOk then none else some ("writing config")

/-- `Config.SetBrightness`: stores the raw value and saves. -/
def Config.SetBrightness (c : Config) (brightness : Int) (saveOk : Bool) :
    Config × Option String :=
  (({ c with Brightness := brightness }),
   ({ c with Brightness := brightness }).Save saveOk)

/-- `Config.SetPower`: stores the power flag and saves. -/
def Config.SetPower (c : Config) (powerOn : Bool) (saveOk : Bool) : Config × Option String :=
  (({ c with PowerOn := powerOn }), ({ c with PowerOn := powerOn }).Save saveOk)

/-- `Config.SetRotationEnabled`: stores the rotation flag and saves. -/
def Config.SetRotationEnabled (c : Config) (enabled : Bool) (saveOk : Bool) :
    Config × Option String :=
  (({ c with RotationEnabled := enabled }), ({ c with RotationEnabled := enabled }).Save saveOk)

/-- `Config.SetApps`: stores the rotation list and saves. -/
def Config.SetApps (c : Config) (apps : List AppEntry) (saveOk : Bool) :
    Config × Option String :=
  (({ c with Apps := apps }), ({ c with Apps := apps }).Save saveOk)

/-- `Config.GetApps` returns a copy of the stored rotation list. -/
def Config.GetApps (c : Config) : List AppEntry :=
  c.Apps

/-- A decoded image from the external renderer: dimensions plus a pixel
function returning the 16-bit `R, G, B` components that Go's
`image.Color.RGBA()` yields. -/
structure PixletImage where
  width : Nat
  height : Nat
  pixel : Nat → Nat → Nat × Nat × Nat

/-- `pixlet.Frame`: a rendered frame with metadata. -/
structure Frame where
  Images : List PixletImage
  DelayMs : Int
  MaxAge : Int
  AppName : String
  Width : Nat
  Height : Nat

/-- `pixlet.ImagesToRGB`: flattens all frames into one raw RGB byte buffer,
row-major, 3 bytes per pixel, using the first image's bounds for every frame
and truncating each 16-bit component to its high byte. -/
def ImagesToRGB (images : List PixletImage) : List Nat :=
  match images with
  | [] => []
  | img0 :: _ =>
    (images.map (fun img =>
      ((List.range img0.height).map (fun y =>
        ((List.range img0.width).map (fun x =>
          [(img.pixel x y).1 / 256 % 256,
           (img.pixel x y).2.1 / 256 % 256,
           (img.pixel x y).2.2 / 256 % 256])).flatten)).flatten)).flatten

/-- The external pixlet renderer (out of scope per the spec): an oracle
giving, for each app path or inline source, either a frame or a render
failure (`none`). -/
structure Renderer where
  RenderApp : String → List (String × String) → Option Frame
  RenderAppFromSource : String → String → List (String × String) → Option Frame

/-- `display.FrameData`: the current frame exposed to clients. -/
structure FrameData where
  Pixels : List Nat
  Width : Nat
  Height : Nat
  FrameCount : Nat
  DelayMs : Int
  DwellSecs : Int
  Brightness : Int
  AppName : String
  UpdatedAt : Int
deriving DecidableEq

/-- `display.Display`: one LED matrix display.  Field names follow the Go
struct: `config`, `apps` (the repository's installed map), `rotation`,
`renderer`, `currentFrame`. -/
structure Display where
  ID : String
  Name : String
  Width : Nat
  Height : Nat
  ClientType : String
  config : Config
  apps : List (String × App)
  rotation : Manager
  renderer : Renderer
  currentFrame : Option FrameData

/-- The Starlark program text synthesized by `renderStartupScreen`.  The model
keeps it as an opaque token: it is only ever handed to the external
renderer. -/
def startupSource : String :=
  "render.Root render.Box MOSAIC Ready"

/-- The Starlark program text synthesized by `renderErrorScreen` for a failed
app, naming the app; opaque to the model like `startupSource`. -/
def errorScreenSource (appName : String) : String :=
  "render.Root render.Box ERROR render.Marquee " ++ appName

/-- The Starlark program text synthesized by `PushText`; opaque to the
model. -/
def pushTextSource (text color : String) : String :=
  "render.Root render.Box render.WrappedText " ++ text ++ " " ++ color

/-- `Display.setFrame`: replaces the current frame snapshot, stamping dwell
from the configured default (ms to s, Go integer division) and brightness
from the scheduler. -/
def Display.setFrame (d : Display) (frame : Frame) (pixels : List Nat) (now : Int) : Display :=
  let frameCount := if frame.Images.length > 0 then frame.Images.length else 1
  let fd : FrameData :=
    { Pixels := pixels, Width := d.Width, Height := d.Height,
      FrameCount := frameCount, DelayMs := frame.DelayMs,
      DwellSecs := Int.tdiv d.config.DefaultDwell 1000,
      Brightness := d.rotation.brightness,
      AppName := frame.AppName, UpdatedAt := now }
  { d with currentFrame := some fd }

/-- `Display.RenderSource`: renders inline source through the renderer; on
failure the error is returned and the frame is untouched. -/
def Display.RenderSource (d : Display) (appID : String) (source : String)
    (config : List (String × String)) (now : Int) : Display × Option String :=
  match d.renderer.RenderAppFromSource appID source config with
  | none => (d, some ("render error"))
  | some frame => (d.setFrame frame (ImagesToRGB frame.Images) now, none)

/-- `Display.renderErrorScreen`: renders a synthesized error program naming
the failed app (the returned render error, if any, is discarded as in Go). -/
def Display.renderErrorScreen (d : Display) (appName : String) (now : Int) : Display :=
  (d.RenderSource ("error") (errorScreenSource appName) [] now).1

/-- `Display.renderApp`: renders a rotation entry; a renderer failure is
contained by substituting the error screen. -/
def Display.renderApp (d : Display) (app : AppEntry) (now : Int) : Display :=
  match d.renderer.RenderApp app.Path app.Config with
  | none => d.renderErrorScreen app.Name now
  | some frame => d.setFrame frame (ImagesToRGB frame.Images) now

/-- `Display.renderStartupScreen`. -/
def Display.renderStartupScreen (d : Display) (now : Int) : Display :=
  (d.RenderSource ("startup") startupSource [] now).1

/-- `Display.renderBlankScreen`: stores an all-black frame with brightness 0
and dwell 0. -/
def Display.renderBlankScreen (d : Display) (now : Int) : Display :=
  let fd : FrameData :=
    { Pixels := List.replicate (d.Width * d.Height * 3) 0,
      Width := d.Width, Height := d.Height, FrameCount := 1, DelayMs := 50,
      DwellSecs := 0, Brightness := 0, AppName := "off", UpdatedAt := now }
  { d with currentFrame := some fd }

/-- `Display.generateTestPattern`: the deterministic gradient placeholder
returned by `GetFrame` before any render. -/
def Display.generateTestPattern (d : Display) (now : Int) : FrameData :=
  { Pixels := ((List.range d.Height).map (fun y =>
      ((List.range d.Width).map (fun x =>
        [x * 255 / d.Width, y * 255 / d.Height, 128])).flatten)).flatten,
    Width := d.Width, Height := d.Height, FrameCount := 1, DelayMs := 50,
    DwellSecs := 0, Brightness := 80, AppName := "test-pattern", UpdatedAt := now }

/-- `Display.GetFrame`: a copy of the current frame — with `DwellSecs`
recomputed from the configured default dwell and `Brightness` read live from
the scheduler — or the test pattern when nothing has been rendered. -/
def Display.GetFrame (d : Display) (now : Int) : FrameData :=
  match d.currentFrame with
  | none => d.generateTestPattern now
  | some f =>
    { Pixels := f.Pixels, Width := f.Width, Height := f.Height,
      FrameCount := f.FrameCount, DelayMs := f.DelayMs,
      DwellSecs := Int.tdiv d.config.DefaultDwell 1000,
      Brightness := d.rotation.brightness,
      AppName := f.AppName, UpdatedAt := f.UpdatedAt }

/-- `display.NewDisplay`: builds the display, seeds the scheduler from the
config, registers the advance callback and renders the startup screen. -/
def NewDisplay (id name : String) (width height : Nat) (cfg : Config)
    (appRepo : List (String × App)) (renderer : Renderer) (now : Int) : Display :=
  let rot := NewManager (cfg.DefaultDwell * 1000000)
  let rot := rot.SetEnabled cfg.RotationEnabled
  let rot := rot.SetBrightness cfg.Brightness
  let rot := rot.SetApps cfg.GetApps
  let rot := rot.OnAdvance
  let d : Display :=
    { ID := id, Name := name, Width := width, Height := height, ClientType := "",
      config := cfg, apps := appRepo, rotation := rot, renderer := renderer,
      currentFrame := none }
  d.renderStartupScreen now

/-- `Display.SetBrightness`: forwards the raw value to the scheduler (which
clamps) and to the config store (which does not); the persistence error, if
any, is the return value. -/
def Display.SetBrightness (d : Display) (brightness : Int) (saveOk : Bool) :
    Display × Option String :=
  let d1 := { d with rotation := d.rotation.SetBrightness brightness }
  let r := d1.config.SetBrightness brightness saveOk
  ({ d1 with config := r.1 }, r.2)

/-- `Display.GetBrightness`. -/
def Display.GetBrightness (d : Display) : Int :=
  d.rotation.brightness

/-- `Display.SetPower`: off disables rotation and stores the blank frame; on
restores the configured rotation flag and re-renders the current selection
(or the startup screen when none); the new power flag is persisted. -/
def Display.SetPower (d : Display) (powerOn : Bool) (now : Int) (saveOk : Bool) :
    Display × Option String :=
  let d1 :=
    if powerOn then
      let da := { d with rotation := d.rotation.SetEnabled d.config.RotationEnabled }
      match da.rotation.CurrentApp with
      | some app => da.renderApp app now
      | none => da.renderStartupScreen now
    else
      ({ d with rotation := d.rotation.SetEnabled false }).renderBlankScreen now
  let r := d1.config.SetPower powerOn saveOk
  ({ d1 with config := r.1 }, r.2)

/-- `Display.IsPowerOn`. -/
def Display.IsPowerOn (d : Display) : Bool :=
  d.config.PowerOn

/-- `Display.SetRotationEnabled`. -/
def Display.SetRotationEnabled (d : Display) (enabled : Bool) (saveOk : Bool) :
    Display × Option String :=
  let d1 := { d with rotation := d.rotation.SetEnabled enabled }
  let r := d1.config.SetRotationEnabled enabled saveOk
  ({ d1 with config := r.1 }, r.2)

/-- `Display.Skip`. -/
def Display.Skip (d : Display) : Display :=
  { d with rotation := d.rotation.Skip }

/-- `Display.ShowApp`: validation error when the app is not installed;
otherwise remembers the enabled flag, disables rotation and renders the app
once.  The third component models the detached resume task: the remembered
flag it will re-apply, scheduled only when the duration is positive. -/
def Display.ShowApp (d : Display) (appID : String) (durationSecs : Int) (now : Int) :
    Display × Option String × Option Bool :=
  match reposGet d.apps appID with
  | none => (d, some ("app \"" ++ appID ++ "\" not installed"), none)
  | some app =>
    let wasEnabled := d.rotation.enabled
    let d1 := { d with rotation := d.rotation.SetEnabled false }
    let entry : AppEntry :=
      { ID := appID, Name := app.Name, Path := app.Path, Config := app.Config,
        DwellMs := 0, Enabled := false }
    (d1.renderApp entry now, none, if durationSecs > 0 then some wasEnabled else none)

/-- The body of `ShowApp`'s detached resume task: re-applies a remembered
rotation-enabled flag after the timer fires. -/
def Display.resumeFromShowApp (d : Display) (wasEnabled : Bool) : Display :=
  { d with rotation := d.rotation.SetEnabled wasEnabled }

/-- `Display.PushText`: synthesizes an inline text program, enqueues it as a
notification, and also renders it immediately (the known dual path). -/
def Display.PushText (d : Display) (text color : String) (durationSecs : Int)
    (priority : Priority) (now : Int) : Display :=
  let color := if color = "" then "#fff" else color
  let source := pushTextSource text color
  let notification : Notification :=
    { ID := "text-" ++ toString now, Text := text, AppID := "", Source := source,
      Config := [], Duration := durationSecs * 1000000000, Priority := priority,
      Created := 0 }
  let d1 := { d with rotation := d.rotation.PushNotification notification now }
  (d1.RenderSource ("notification") source [] now).1

/-! Display-layer claims. -/

/-- A renderer oracle that always fails (render error on every call). -/
def failRenderer : Renderer :=
  { RenderApp := fun _ _ => none, RenderAppFromSource := fun _ _ _ => none }

/-- A concrete 2-by-1 display built from the default config with an empty
repository; the startup render fails, leaving no frame. -/
def dTiny : Display :=
  NewDisplay ("d1") ("Display 1") 2 1 DefaultConfig [] failRenderer 0

/-- The tiny display after `SetPower(false)`. -/
def dTinyOff : Display :=
  (dTiny.SetPower false 0 true).1

/-- The frame stored by `renderBlankScreen` (statement-level shorthand). -/
def blankFrame (w h : Nat) (now : Int) : FrameData :=
  { Pixels := List.replicate (w * h * 3) 0, Width := w, Height := h, FrameCount := 1,
    DelayMs := 50, DwellSecs := 0, Brightness := 0, AppName := "off", UpdatedAt := now }

/-- Claim C1 counterexample: on a 2x1 display with default config (brightness
80, default dwell 10000 ms), after `SetPower(false)` the frame returned by
`GetFrame` does have the all-zero pixel buffer, but reports brightness 80 and
dwell 10 — not brightness 0 and dwell 0 as claimed — because `GetFrame`
recomputes both fields from live state rather than the stored snapshot. -/
theorem setPower_off_getFrame_cex :
    (dTinyOff.GetFrame 0).Pixels = List.replicate (2 * 1 * 3) 0
    ∧ (dTinyOff.GetFrame 0).Brightness = 80
    ∧ (dTinyOff.GetFrame 0).DwellSecs = 10
    ∧ ¬ ((dTinyOff.GetFrame 0).Brightness = 0 ∧ (dTinyOff.GetFrame 0).DwellSecs = 0)
    ∧ dTinyOff.rotation.enabled = false := by
  decide

/-- Claim C1 (amended): after `SetPower(false)` rotation is disabled and the
stored snapshot is the all-zero buffer of length `Width*Height*3` with
brightness 0 and dwell 0; `GetFrame` returns those all-zero pixels, but with
brightness taken live from the scheduler (unchanged by power-off) and dwell
`DefaultDwell / 1000`, not the stored zeros. -/
theorem setPower_off_spec (d : Display) (now now2 : Int) (saveOk : Bool) :
    (d.SetPower false now saveOk).1.rotation.enabled = false
    ∧ (d.SetPower false now saveOk).1.currentFrame = some (blankFrame d.Width d.Height now)
    ∧ ((d.SetPower false now saveOk).1.GetFrame now2).Pixels
        = List.replicate (d.Width * d.Height * 3) 0
    ∧ ((d.SetPower false now saveOk).1.GetFrame now2).Brightness = d.rotation.brightness
    ∧ ((d.SetPower false now saveOk).1.GetFrame now2).DwellSecs
        = Int.tdiv d.config.DefaultDwell 1000 :=
  ⟨rfl, rfl, rfl, rfl, rfl⟩

lemma renderApp_fields (d : Display) (app : AppEntry) (now : Int) :
    (d.renderApp app now).rotation = d.rotation
    ∧ (d.renderApp app now).apps = d.apps
    ∧ (d.renderApp app now).config = d.config := by
  cases h : d.renderer.RenderApp app.Path app.Config with
  | none =>
    cases h2 : d.renderer.RenderAppFromSource ("error") (errorScreenSource app.Name) [] with
    | none =>
      simp [Display.renderApp, h, Display.renderErrorScreen, Display.RenderSource, h2]
    | some f2 =>
      simp [Display.renderApp, h, Display.renderErrorScreen, Display.RenderSource, h2,
        Display.setFrame]
  | some f =>
    simp [Display.renderApp, h, Display.setFrame]

/-- A repository entry used by the `ShowApp` witness. -/
def appClock : App :=
  { ID := "clock", Name := "Clock", Summary := "", Description := "", Author := "",
    Category := "", Path := "/data/apps/clock/clock.star", Config := [], SchemaJSON := [],
    Source := "local", Installed := 0 }

/-- A display whose repository has exactly the `clock` app installed. -/
def dShow : Display :=
  NewDisplay ("d2") ("Display 2") 64 32 DefaultConfig [("clock", appClock)] failRenderer 0

/-- Claim C6: `ShowApp` errors exactly when the app id is not installed, and
then the whole state is unchanged; on success it reports no error, disables
rotation, and — when the duration is positive — schedules a resume task
carrying exactly the previously remembered enabled flag, whose later
execution re-applies that flag. -/
theorem showApp_validation (d : Display) (appID : String) (dur now : Int) :
    ((d.ShowApp appID dur now).2.1 ≠ none ↔ reposGet d.apps appID = none)
    ∧ (reposGet d.apps appID = none →
        d.ShowApp appID dur now = (d, some ("app \"" ++ appID ++ "\" not installed"), none))
    ∧ (reposGet d.apps appID ≠ none →
        (d.ShowApp appID dur now).2.1 = none
        ∧ (d.ShowApp appID dur now).1.rotation.enabled = false
        ∧ (d.ShowApp appID dur now).2.2
            = (if dur > 0 then some d.rotation.enabled else none)
        ∧ ∀ b, ((d.ShowApp appID dur now).1.resumeFromShowApp b).rotation.enabled = b) := by
  cases h : reposGet d.apps appID with
  | none =>
    refine ⟨?_, ?_, ?_⟩
    · simp [Display.ShowApp, h]
    · intro _
      simp [Display.ShowApp, h]
    · intro hc
      exact absurd rfl hc
  | some app =>
    refine ⟨?_, ?_, ?_⟩
    · simp [Display.ShowApp, h]
    · intro hc
      exact Option.noConfusion hc
    · intro _
      refine ⟨?_, ?_, ?_, ?_⟩
      · simp [Display.ShowApp, h]
      · simp only [Display.ShowApp, h]
        rw [(renderApp_fields _ _ _).1]
        rfl
      · simp [Display.ShowApp, h]
      · intro b
        simp [Display.resumeFromShowApp, Manager.SetEnabled]

/-- Witness for C6: showing the installed `clock` app for 5 seconds schedules
a resume task remembering the previously enabled rotation. -/
theorem showApp_validation_witness :
    (Display.ShowApp dShow ("clock") 5 0).2.2 = some true := by
  have h := (showApp_validation dShow ("clock") 5 0).2.2 (by decide)
  rw [h.2.2.1]
  decide

/-- Claim C10: `Display.SetBrightness` stores the clamped value in the live
scheduler but forwards the raw value to the config store, so any out-of-range
input leaves the persisted brightness different from the in-memory one; the
in-memory state is identical whether or not the save succeeds, and a
persistence failure (or unset config path) surfaces as the returned error. -/
theorem displaySetBrightness_raw_persist (d : Display) (v : Int) (saveOk : Bool) :
    (d.SetBrightness v saveOk).1.rotation.brightness = min 100 (max 0 v)
    ∧ (d.SetBrightness v saveOk).1.config.Brightness = v
    ∧ ((v < 0 ∨ 100 < v) →
        (d.SetBrightness v saveOk).1.config.Brightness
          ≠ (d.SetBrightness v saveOk).1.rotation.brightness)
    ∧ (d.SetBrightness v true).1 = (d.SetBrightness v false).1
    ∧ ((d.SetBrightness v saveOk).2 = none ↔ (¬ d.config.path = "" ∧ saveOk = true)) := by
  have hclamp : (d.SetBrightness v saveOk).1.rotation.brightness = min 100 (max 0 v) := by
    show (if v < 0 then (0 : Int) else if v > 100 then 100 else v) = min 100 (max 0 v)
    split_ifs <;> omega
  refine ⟨hclamp, rfl, ?_, rfl, ?_⟩
  · intro hv
    show ¬ ((d.SetBrightness v saveOk).1.config.Brightness
      = (d.SetBrightness v saveOk).1.rotation.brightness)
    rw [hclamp]
    show ¬ (v = min 100 (max 0 v))
    intro he
    omega
  · show (if d.config.path = "" then some ("config path not set")
      else if saveOk then none else some ("writing config")) = none
      ↔ (¬ d.config.path = "" ∧ saveOk = true)
    by_cases hp : d.config.path = "" <;> cases saveOk <;> simp [hp]

/-- Witness for C10: brightness 150 persists as 150 but the scheduler holds
the clamped 100, so the two diverge. -/
theorem displaySetBrightness_raw_persist_witness :
    (Display.SetBrightness dShow 150 true).1.config.Brightness
      ≠ (Display.SetBrightness dShow 150 true).1.rotation.brightness :=
  (displaySetBrightness_raw_persist dShow 150 true).2.2.1 (Or.inr (by norm_num))

/-! The current-index invariant: justified hypothesis of the advance claim.
From the initial state the index is 0 on an empty list and strictly below the
list length otherwise, across every scheduler operation. -/

/-- The spec's index invariant: within `[0, len(apps))`, or pinned at 0 when
the list is empty. -/
def indexOK (m : Manager) : Prop :=
  (m.apps = [] → m.currentIndex = 0) ∧ (m.apps ≠ [] → m.currentIndex < m.apps.length)

lemma advLoop_lt (apps : List AppEntry) (start : Nat) (hlen : 0 < apps.length) :
    ∀ fuel i cur, cur < apps.length → advLoop apps start i cur fuel < apps.length := by
  intro fuel
  induction fuel with
  | zero => intro i cur h; exact h
  | succ fuel ih =>
    intro i cur _
    by_cases hc : (apps.getD ((start + i + 1) % apps.length) default).Enabled = true
    · simp only [advLoop, hc, if_true]
      exact Nat.mod_lt _ hlen
    · simp only [advLoop, hc, if_false]
      exact ih (i + 1) _ (Nat.mod_lt _ hlen)

lemma eraseFirstApp_length : ∀ (l : List AppEntry) (id : String) (l' : List AppEntry),
    eraseFirstApp l id = some l' → l'.length + 1 = l.length := by
  intro l
  induction l with
  | nil => intro id l' h; cases h
  | cons a rest ih =>
    intro id l' h
    by_cases ha : a.ID = id
    · simp only [eraseFirstApp, ha, if_pos] at h
      injection h with h
      rw [← h]
      rfl
    · simp only [eraseFirstApp, ha, if_false] at h
      cases hr : eraseFirstApp rest id with
      | none => rw [hr] at h; cases h
      | some l2 =>
        rw [hr] at h
        injection h with h
        have := ih id l2 hr
        rw [← h]
        simp only [List.length_cons]
        omega

lemma applyOp_indexOK (m : Manager) (op : MOp) (h : indexOK m) : indexOK (m.applyOp op) := by
  obtain ⟨hnil, hlt⟩ := h
  cases op with
  | setApps l =>
    constructor
    · intro he
      have : l.length = 0 := by
        simpa [Manager.applyOp, Manager.SetApps, Manager.notifyUpdate] using congrArg
          List.length he
      simp [Manager.applyOp, Manager.SetApps, Manager.notifyUpdate, this]
    · intro hne
      have hne' : l ≠ [] := by
        simpa [Manager.applyOp, Manager.SetApps, Manager.notifyUpdate] using hne
      have hl : 0 < l.length := List.length_pos.mpr hne'
      simp only [Manager.applyOp, Manager.SetApps, Manager.notifyUpdate]
      split_ifs with hge
      · exact hl
      · omega
  | addApp a =>
    constructor
    · intro he
      exact absurd (congrArg List.length he) (by simp [Manager.applyOp, Manager.AddApp,
        Manager.notifyUpdate])
    · intro _
      simp only [Manager.applyOp, Manager.AddApp, Manager.notifyUpdate, List.length_append,
        List.length_cons, List.length_nil]
      by_cases he : m.apps = []
      · rw [hnil he, he]
        simp
      · have := hlt he
        omega
  | removeApp id =>
    cases heq : eraseFirstApp m.apps id with
    | none =>
      have hres : m.applyOp (MOp.removeApp id) = m := by
        simp [Manager.applyOp, Manager.RemoveApp, heq]
      rw [hres]
      exact ⟨hnil, hlt⟩
    | some l' =>
      have hlen := eraseFirstApp_length m.apps id l' heq
      have hme : m.apps ≠ [] := by
        intro he
        rw [he] at heq
        cases heq
      have hmlt := hlt hme
      have hres : m.applyOp (MOp.removeApp id)
          = Manager.notifyUpdate
              { m with apps := l',
                       currentIndex := if m.currentIndex ≥ l'.length ∧ l'.length > 0
                         then 0 else m.currentIndex } := by
        simp [Manager.applyOp, Manager.RemoveApp, heq]
      rw [hres]
      constructor
      · intro he
        have h0 : l' = [] := by simpa [Manager.notifyUpdate] using he
        have h0' : l'.length = 0 := by simp [h0]
        simp only [Manager.notifyUpdate]
        split_ifs with hc
        · rfl
        · omega
      · intro hne
        have h0 : 0 < l'.length :=
          List.length_pos.mpr (by simpa [Manager.notifyUpdate] using hne)
        simp only [Manager.notifyUpdate]
        split_ifs with hc
        · exact h0
        · omega
  | setEnabled b => exact ⟨hnil, hlt⟩
  | setBrightness v => exact ⟨hnil, hlt⟩
  | skip => exact ⟨hnil, hlt⟩
  | pushNotification n t => exact ⟨hnil, hlt⟩
  | clearNotifications => exact ⟨hnil, hlt⟩
  | onAdvance => exact ⟨hnil, hlt⟩
  | advance =>
    by_cases h0 : m.apps.length = 0
    · have hres : m.applyOp MOp.advance = m := by
        simp [Manager.applyOp, Manager.advance, h0]
      rw [hres]
      exact ⟨hnil, hlt⟩
    · have hl : 0 < m.apps.length := by omega
      have hme : m.apps ≠ [] := by
        intro he
        rw [he] at h0
        simp at h0
      have hres : m.applyOp MOp.advance
          = { m with
              currentIndex := advLoop m.apps m.currentIndex 0 m.currentIndex m.apps.length } := by
        simp [Manager.applyOp, Manager.advance, h0]
      rw [hres]
      constructor
      · intro he
        exact absurd (show m.apps = [] by simpa using he) hme
      · intro _
        exact advLoop_lt m.apps m.currentIndex hl m.apps.length 0 m.currentIndex (hlt hme)

/-- The index invariant holds in every state reachable from a fresh scheduler,
so the `currentIndex < len(apps)` hypothesis of the advance claim is satisfied
in every reachable non-empty state. -/
lemma runOps_indexOK (d : Int) (ops : List MOp) : indexOK ((NewManager d).runOps ops) := by
  have h0 : indexOK (NewManager d) := ⟨fun _ => rfl, fun hne => absurd rfl hne⟩
  revert h0
  generalize NewManager d = m
  revert m
  induction ops with
  | nil => intro m h; exact h
  | cons op ops ih =>
    intro m h
    exact ih (m.applyOp op) (applyOp_indexOK m op h)

end Mosaic
